import Mathlib

/-!
Shallow embedding of `src/LZ78.py` (GColom/LZ78): the LZ78 entropy-rate
estimator `erLZ78`, its input validation, and the module-level
minimum-sample-size configuration (`set_minimum_size`).

Modelling choices, recorded once here:

* Symbols are `Int` values, matching the integer sequences the module is
  written for (the demonstration routine feeds 0/1 samples); the numpy
  dtype kind of the input is carried as a separate `Char` parameter, since
  validation reads only the kind while the algorithm reads only the values.
* The numpy float arithmetic of the final formula (`log2`, `ceil`, `/`) is
  modelled in exact real arithmetic, as the spec states the same formula.
* Dictionary keys are modelled at the byte level.  `tobytes()` of an int64
  array and of a float64 array are concatenations of 8-byte blocks, so a
  key is a list of 64-bit block patterns tagged as coming from bytes, plus
  the separate python-int key `-1` used for the compensation entry.  The
  block pattern of an int64 value is its two's complement; the block
  pattern of a float64 value is its IEEE-754 binary64 bit pattern (the two
  agree exactly on the value 0).  This matters because the code initialises
  the phrase buffer as an int64 array (line 77) but resets it to a default
  float64 array (line 99), so the first phrase is keyed by int64 bytes and
  every later phrase by float64 bytes.
* The python dict is an insertion-ordered association list with unique
  keys; `d[k] = v` updates in place when `k` is present, else appends.
* `raise ValueError` is modelled with `Except String`, carrying the
  message; the process-wide mutable `_MINIMUM_SAMPLE_SIZE_` / `InputError`
  pair is modelled by an explicit `Config` value threaded to the call.
-/

namespace LZ78

/-- numpy dtype of the phrase buffer: `int64` before the first reset
(line 77 `array([], dtype = int64)`), `float64` after any reset
(line 99 `array([])`). -/
inductive Dtype where
  | i64 : Dtype
  | f64 : Dtype
deriving DecidableEq

/-- A python dict key as used by the code: either a `bytes` object
(modelled as the list of 8-byte blocks, each block a bit pattern `< 2^64`)
or the python int `-1` used for the compensation entry (line 89). -/
inductive TKey where
  | bytes : List Nat → TKey
  | intKey : Int → TKey
deriving DecidableEq

/-- Two's-complement 64-bit block pattern of an int64 value, as laid out
by `numpy.ndarray.tobytes` (one 8-byte block per element). -/
def encI (v : Int) : Nat := (v % (2 ^ 64 : Int)).toNat

/-- Floor of the binary logarithm, by structural recursion on a fuel
argument (`fuel ≥ n` suffices since halving reaches `1` within `n`
steps); agrees with the usual `log2` on every positive input. -/
def log2fuel : Nat → Nat → Nat
  | 0, _ => 0
  | fuel + 1, n => if 2 ≤ n then log2fuel fuel (n / 2) + 1 else 0

/-- Floor of the binary logarithm of a positive integer. -/
def ilog2 (n : Nat) : Nat := log2fuel n n

/-- IEEE-754 binary64 bit pattern of a positive integer `w` (round to
nearest, ties to even), as stored in a float64 numpy array. -/
def encFpos (w : Nat) : Nat :=
  let k := ilog2 w
  if k ≤ 52 then (1023 + k) * 2 ^ 52 + (w * 2 ^ (52 - k) - 2 ^ 52)
  else
    let d := 2 ^ (k - 52)
    let q := w / d
    let r := w % d
    let q2 := if d < 2 * r ∨ (2 * r = d ∧ q % 2 = 1) then q + 1 else q
    if q2 = 2 ^ 53 then (1024 + k) * 2 ^ 52
    else (1023 + k) * 2 ^ 52 + (q2 - 2 ^ 52)

/-- IEEE-754 binary64 bit pattern of an integer value stored in a float64
numpy array (sign bit on top for negatives; `+0.0` for zero). -/
def encF (v : Int) : Nat :=
  if v = 0 then 0
  else if 0 < v then encFpos v.toNat
  else 2 ^ 63 + encFpos (-v).toNat

/-- Block pattern of one array element under the array's dtype. -/
def encOf : Dtype → Int → Nat
  | Dtype.i64, v => encI v
  | Dtype.f64, v => encF v

/-- `arr.tobytes()` of the phrase buffer as a dict key. -/
def toKey (d : Dtype) (l : List Int) : TKey := TKey.bytes (l.map (encOf d))

/-- `k in table` for a python dict modelled as an association list. -/
def dictMem (t : List (TKey × Int)) (k : TKey) : Bool :=
  t.any (fun p => p.1 = k)

/-- `table[k] = v` for a python dict: update in place when the key exists,
else append at the end (insertion order preserved). -/
def dictInsert (t : List (TKey × Int)) (k : TKey) (v : Int) : List (TKey × Int) :=
  if dictMem t k then t.map (fun p => if p.1 = k then (k, v) else p)
  else t ++ [(k, v)]

/-- The mutable state of the parsing loop: the phrase table, the current
phrase buffer (`current_seq`) and the buffer's dtype. -/
structure LZState where
  table : List (TKey × Int)
  cur : List Int
  curD : Dtype
deriving DecidableEq

/-- One iteration of `for idx, number in enumerate(sequence)`
(lines 84-99): append the symbol to the buffer; if the buffer's bytes key
is present and this is the last index, insert the compensation entry
`table[-1] = -1`; if present and not last, keep extending; otherwise
insert the key with value `len(table)` and reset the buffer to a default
(float64) empty array. -/
def lzStep (n : Nat) (st : LZState) (p : Nat × Int) : LZState :=
  let cur2 := st.cur ++ [p.2]
  let key := toKey st.curD cur2
  if dictMem st.table key then
    if p.1 = n - 1 then
      { st with table := dictInsert st.table (TKey.intKey (-1)) (-1), cur := cur2 }
    else { st with cur := cur2 }
  else
    { st with table := dictInsert st.table key (st.table.length : Int),
              cur := [], curD := Dtype.f64 }

/-- Initial loop state (lines 76-77): the table seeded with the empty
bytes key at index 0, and an empty int64 buffer. -/
def initState : LZState := ⟨[(TKey.bytes [], 0)], [], Dtype.i64⟩

/-- The loop state after the first `j` iterations on `seq` (the python
`break` at the last index coincides with the loop ending). -/
def lzRun (seq : List Int) (j : Nat) : LZState :=
  (seq.enum.take j).foldl (lzStep seq.length) initState

/-- The phrase table after the whole parsing loop. -/
def finalTable (seq : List Int) : List (TKey × Int) := (lzRun seq seq.length).table

/-- `len(table)` at line 100: the phrase count `c`, seed and optional
compensation entry included. -/
def phraseCount (seq : List Int) : Nat := (finalTable seq).length

/-- `len(unique(array(sequence)))`: the number of distinct symbols. -/
def alphaSize (seq : List Int) : Nat := seq.dedup.length

/-- `ceil(log2(a))` at line 81, in exact real arithmetic. -/
noncomputable def adl (a : Nat) : ℝ := ((⌈Real.logb 2 (a : ℝ)⌉ : ℤ) : ℝ)

/-- The algorithm body after validation (lines 74-100): return 0 for a
length-1 sequence, 0 for a single-symbol alphabet, else
`len(table) * (log2(len(table)) + adl) / len(sequence)`. -/
noncomputable def erCore (seq : List Int) : ℝ :=
  if seq.length = 1 then 0
  else if alphaSize seq = 1 then 0
  else (phraseCount seq : ℝ) *
    (Real.logb 2 (phraseCount seq : ℝ) + adl (alphaSize seq)) / (seq.length : ℝ)

/-- `_UNSUPPORTED_KINDS_` (line 40): float, complex, void, object. -/
def unsupportedKinds : List Char := ['f', 'c', 'V', 'O']

/-- `_UNSUPPORTED_KIND_TEMPLATE_.format(kind)` (lines 41, 68). -/
def unsupportedKindMessage (kind : Char) : String :=
  "The provided data kind (" ++ String.mk [kind] ++
    ") is not guaranteed to produce sensible output. If you intend to run the algorithm on the data nonetheless, override the input check. For more information on data kind, please refer to the numpy.dtype.kind documentation."

/-- `_INPUT_ERROR_TEMPLATE_.format(newSize)` (lines 13, 35). -/
def inputErrorMessage (newSize : Nat) : String :=
  "Sample size is below minimum (" ++ toString newSize ++
    " outcomes). Minimal sample size can be set, at your own risk, via LZ78.set_minimum_size(new_size). Keep in mind that the accuracy of the estimate grows with the sample size."

/-- The process-wide mutable configuration: `_MINIMUM_SAMPLE_SIZE_` and
the stored `InputError` message, made explicit. -/
structure Config where
  minSize : Nat
  inputErrorMsg : String
deriving DecidableEq

/-- `set_minimum_size(new_size)` (lines 16-35): store the new threshold
and regenerate the `InputError` message from the template. -/
def set_minimum_size (newSize : Nat) : Config :=
  ⟨newSize, inputErrorMessage newSize⟩

/-- The configuration installed at module load (lines 12, 37). -/
def defaultConfig : Config := set_minimum_size 5

/-- The condition under which the non-overridden input check raises no
error: supported dtype kind and length at least the configured minimum. -/
def passesValidation (kind : Char) (cfg : Config) (seq : List Int) : Prop :=
  kind ∉ unsupportedKinds ∧ cfg.minSize ≤ seq.length

instance (kind : Char) (cfg : Config) (seq : List Int) :
    Decidable (passesValidation kind cfg seq) := by
  unfold passesValidation
  exact inferInstance

/-- `erLZ78(sequence, override_input_check)` (lines 44-100).  When the
check is not overridden, the sequence is cast to a numpy array (identity
on our integer-valued model), the dtype kind is checked against
`_UNSUPPORTED_KINDS_`, then the size against `_MINIMUM_SAMPLE_SIZE_`;
a failed check raises the corresponding `ValueError` (modelled as
`Except.error` with the message).  Otherwise the algorithm body runs. -/
noncomputable def erLZ78 (kind : Char) (seq : List Int) (cfg : Config)
    (ov : Bool) : Except String ℝ :=
  if ov then Except.ok (erCore seq)
  else if kind ∈ unsupportedKinds then Except.error (unsupportedKindMessage kind)
  else if seq.length < cfg.minSize then Except.error cfg.inputErrorMsg
  else Except.ok (erCore seq)

/-!  Spec-side model of the phrase parser, for comparison with the code.  -/

/-- State of the parser described in §4.1 of the specification: the list
of phrases in the table (seed empty phrase first), the buffer, and
whether the compensation entry was inserted. -/
structure SpecState where
  phrases : List (List Int)
  buf : List Int
  comp : Bool
deriving DecidableEq

/-- Modelled from the spec: one step of the §4.1 parsing algorithm, with
phrases compared by value equality ("the buffer's canonical encoding"):
Case A (found, last position) inserts the compensation entry; Case B
(found, not last) keeps extending the buffer; Case C (not found) appends
the buffer as a new phrase and resets it. -/
def specStep (n : Nat) (st : SpecState) (p : Nat × Int) : SpecState :=
  let b2 := st.buf ++ [p.2]
  if b2 ∈ st.phrases then
    if p.1 = n - 1 then { st with buf := b2, comp := true }
    else { st with buf := b2 }
  else { st with phrases := st.phrases ++ [b2], buf := [] }

/-- Modelled from the spec: run the §4.1 parser over the whole sequence,
starting from the seeded table. -/
def specRun (seq : List Int) : SpecState :=
  seq.enum.foldl (specStep seq.length) ⟨[[]], [], false⟩

/-- The number `k` of distinct LZ78 phrases of the sequence (seed entry
excluded), under the spec's value-equality parse. -/
def specDistinctPhrases (seq : List Int) : Nat := (specRun seq).phrases.length - 1

/-- Whether the sequence ends mid-phrase on an already-seen phrase
(Case A fires), under the spec's value-equality parse. -/
def specEndsOnRepeat (seq : List Int) : Bool := (specRun seq).comp

/-!  Invariant of the phrase table (spec §3).  -/

/-- Entries from position `k` on carry their own position as value,
except the compensation entry (key `-1`). -/
def tableIndexedFrom : Nat → List (TKey × Int) → Prop
  | _, [] => True
  | k, e :: rest =>
      (e.1 ≠ TKey.intKey (-1) → e.2 = (k : Int)) ∧ tableIndexedFrom (k + 1) rest

/-- The spec §3 phrase-table invariant: keys are unique, and the `k`-th
entry inserted (0-indexed, seed included) has value `k`, the compensation
entry apart. -/
def tableInv (t : List (TKey × Int)) : Prop :=
  (t.map Prod.fst).Nodup ∧ tableIndexedFrom 0 t

/-!  Helper lemmas.  -/

theorem passesValidation_iff (kind : Char) (cfg : Config) (seq : List Int) :
    passesValidation kind cfg seq ↔
      kind ∉ unsupportedKinds ∧ cfg.minSize ≤ seq.length := Iff.rfl

/-- Whenever the input check is overridden or passes, `erLZ78` runs the
algorithm body and returns its value. -/
theorem erLZ78_ok (kind : Char) (seq : List Int) (cfg : Config) (ov : Bool)
    (h : ov = true ∨ passesValidation kind cfg seq) :
    erLZ78 kind seq cfg ov = Except.ok (erCore seq) := by
  rcases h with h | h
  · simp [erLZ78, h]
  · obtain ⟨h1, h2⟩ := (passesValidation_iff kind cfg seq).mp h
    cases ov with
    | true => simp [erLZ78]
    | false => simp [erLZ78, h1, Nat.not_lt.mpr h2]

theorem erCore_of_length_one {seq : List Int} (h : seq.length = 1) :
    erCore seq = 0 := by
  simp [erCore, h]

theorem erCore_of_alpha_one {seq : List Int} (h1 : seq.length ≠ 1)
    (h2 : alphaSize seq = 1) : erCore seq = 0 := by
  simp [erCore, h1, h2]

theorem erCore_formula {seq : List Int} (h1 : seq.length ≠ 1)
    (h2 : alphaSize seq ≠ 1) :
    erCore seq = (phraseCount seq : ℝ) *
      (Real.logb 2 (phraseCount seq : ℝ) + adl (alphaSize seq)) / (seq.length : ℝ) := by
  simp [erCore, h1, h2]

theorem length_le_dictInsert (t : List (TKey × Int)) (k : TKey) (v : Int) :
    t.length ≤ (dictInsert t k v).length := by
  unfold dictInsert
  split
  · simp
  · simp

theorem length_le_lzStep (n : Nat) (st : LZState) (p : Nat × Int) :
    st.table.length ≤ (lzStep n st p).table.length := by
  dsimp only [lzStep]
  split
  · split
    · exact length_le_dictInsert _ _ _
    · exact Nat.le_refl _
  · exact length_le_dictInsert _ _ _

theorem length_le_foldl (n : Nat) (l : List (Nat × Int)) (st : LZState) :
    st.table.length ≤ (l.foldl (lzStep n) st).table.length := by
  induction l generalizing st with
  | nil => exact Nat.le_refl _
  | cons p rest ih => exact Nat.le_trans (length_le_lzStep n st p) (ih _)

/-- The phrase table never shrinks, so it always keeps its seed entry. -/
theorem one_le_phraseCount (seq : List Int) : 1 ≤ phraseCount seq := by
  have h := length_le_foldl seq.length (seq.enum.take seq.length) initState
  simpa [phraseCount, finalTable, lzRun, initState] using h

theorem one_le_alphaSize {seq : List Int} (h : seq ≠ []) : 1 ≤ alphaSize seq := by
  unfold alphaSize
  have hd : seq.dedup ≠ [] := by
    simpa [List.dedup_eq_nil] using h
  exact List.length_pos.mpr hd

/-- The algorithm body is non-negative on every non-empty sequence. -/
theorem erCore_nonneg (seq : List Int) (h : 1 ≤ seq.length) : 0 ≤ erCore seq := by
  by_cases h1 : seq.length = 1
  · rw [erCore_of_length_one h1]
  · by_cases h2 : alphaSize seq = 1
    · rw [erCore_of_alpha_one h1 h2]
    · rw [erCore_formula h1 h2]
      apply div_nonneg
      · apply mul_nonneg
        · positivity
        · apply add_nonneg
          · apply Real.logb_nonneg one_lt_two
            exact_mod_cast one_le_phraseCount seq
          · unfold adl
            have hlog : (0 : ℝ) ≤ Real.logb 2 (alphaSize seq : ℝ) := by
              apply Real.logb_nonneg one_lt_two
              exact_mod_cast one_le_alphaSize (List.length_pos.mp h)
            exact_mod_cast Int.ceil_nonneg hlog
      · positivity

theorem tableIndexedFrom_cons (k : Nat) (e : TKey × Int) (rest : List (TKey × Int)) :
    tableIndexedFrom k (e :: rest) ↔
      (e.1 ≠ TKey.intKey (-1) → e.2 = (k : Int)) ∧ tableIndexedFrom (k + 1) rest :=
  Iff.rfl

theorem tableIndexedFrom_append (k : Nat) (t1 t2 : List (TKey × Int)) :
    tableIndexedFrom k (t1 ++ t2) ↔
      tableIndexedFrom k t1 ∧ tableIndexedFrom (k + t1.length) t2 := by
  induction t1 generalizing k with
  | nil => simp [tableIndexedFrom]
  | cons e rest ih =>
    rw [List.cons_append, tableIndexedFrom_cons, tableIndexedFrom_cons, ih (k + 1),
      List.length_cons]
    have he : k + 1 + rest.length = k + (rest.length + 1) := by omega
    rw [← he]
    exact and_assoc.symm

/-- Appending a fresh key with value `len(table)` preserves the table
invariant. -/
theorem tableInv_append (t : List (TKey × Int)) (key : TKey) (v : Int)
    (h : tableInv t) (hmem : dictMem t key = false)
    (hv : key ≠ TKey.intKey (-1) → v = (t.length : Int)) :
    tableInv (t ++ [(key, v)]) := by
  obtain ⟨hnd, hidx⟩ := h
  have hk : key ∉ t.map Prod.fst := by
    intro hc
    obtain ⟨p, hp, hpk⟩ := List.mem_map.mp hc
    have : dictMem t key = true := by
      unfold dictMem
      rw [List.any_eq_true]
      exact ⟨p, hp, by simp [hpk]⟩
    rw [hmem] at this
    exact Bool.false_ne_true this
  constructor
  · rw [List.map_append]
    rw [List.nodup_append]
    refine ⟨hnd, List.nodup_singleton _, ?_⟩
    intro a ha hb
    simp only [List.map_cons, List.map_nil, List.mem_singleton] at hb
    rw [hb] at ha
    exact hk ha
  · rw [tableIndexedFrom_append]
    refine ⟨hidx, ?_⟩
    refine ⟨fun hne => ?_, trivial⟩
    rw [hv hne]
    simp

theorem tableIndexedFrom_update_sentinel (k : Nat) (t : List (TKey × Int))
    (h : tableIndexedFrom k t) :
    tableIndexedFrom k (t.map fun p =>
      if p.1 = TKey.intKey (-1) then (TKey.intKey (-1), (-1 : Int)) else p) := by
  induction t generalizing k with
  | nil => trivial
  | cons e rest ih =>
    obtain ⟨h1, h2⟩ := h
    rw [List.map_cons, tableIndexedFrom_cons]
    refine ⟨?_, ih (k + 1) h2⟩
    dsimp only
    by_cases he : e.1 = TKey.intKey (-1)
    · rw [if_pos he]
      intro hc
      exact absurd rfl hc
    · rw [if_neg he]
      exact h1

/-- Inserting the compensation entry preserves the table invariant. -/
theorem tableInv_dictInsert_sentinel (t : List (TKey × Int)) (h : tableInv t) :
    tableInv (dictInsert t (TKey.intKey (-1)) (-1)) := by
  unfold dictInsert
  split
  · obtain ⟨hnd, hidx⟩ := h
    constructor
    · have hkeys : (t.map fun p =>
          if p.1 = TKey.intKey (-1) then (TKey.intKey (-1), (-1 : Int)) else p).map
            Prod.fst = t.map Prod.fst := by
        rw [List.map_map]
        apply List.map_congr_left
        intro p _
        by_cases hp : p.1 = TKey.intKey (-1)
        · simp [hp]
        · simp [hp]
      rw [hkeys]
      exact hnd
    · exact tableIndexedFrom_update_sentinel 0 t hidx
  · rename_i hmem
    exact tableInv_append t _ _ h (by simpa using hmem) (fun hne => absurd rfl hne)

theorem tableInv_lzStep (n : Nat) (st : LZState) (p : Nat × Int)
    (h : tableInv st.table) : tableInv (lzStep n st p).table := by
  dsimp only [lzStep]
  split
  · split
    · exact tableInv_dictInsert_sentinel _ h
    · exact h
  · rename_i hmem
    unfold dictInsert
    rw [if_neg hmem]
    exact tableInv_append _ _ _ h (by simpa using hmem) (fun _ => rfl)

theorem tableInv_foldl (n : Nat) (l : List (Nat × Int)) (st : LZState)
    (h : tableInv st.table) : tableInv ((l.foldl (lzStep n) st).table) := by
  induction l generalizing st with
  | nil => exact h
  | cons p rest ih => exact ih _ (tableInv_lzStep n st p h)

theorem tableInv_init : tableInv initState.table := by
  constructor
  · simp [initState]
  · exact ⟨fun _ => rfl, trivial⟩

/-!  Claims.  -/

/-- C1: for every sequence of length `n ≥ 2` with alphabet size `a ≥ 2`
that passes or skips input validation, `erLZ78` returns exactly
`c * (log2 c + ceil(log2 a)) / n`, where `c` is the final size of the
phrase table produced by the parsing loop (seed and any compensation
entry included). -/
theorem claim1_estimator_formula (kind : Char) (seq : List Int) (cfg : Config)
    (ov : Bool) (hn : 2 ≤ seq.length) (ha : 2 ≤ alphaSize seq)
    (hv : ov = true ∨ passesValidation kind cfg seq) :
    erLZ78 kind seq cfg ov = Except.ok ((phraseCount seq : ℝ) *
      (Real.logb 2 (phraseCount seq : ℝ) + adl (alphaSize seq)) /
        (seq.length : ℝ)) := by
  rw [erLZ78_ok kind seq cfg ov hv, erCore_formula (by omega) (by omega)]

theorem claim1_estimator_formula_witness :
    erLZ78 'i' [0, 1, 0, 1, 0] defaultConfig true =
      Except.ok ((phraseCount [0, 1, 0, 1, 0] : ℝ) *
        (Real.logb 2 (phraseCount [0, 1, 0, 1, 0] : ℝ) +
          adl (alphaSize [0, 1, 0, 1, 0])) /
            (([0, 1, 0, 1, 0] : List Int).length : ℝ)) :=
  claim1_estimator_formula 'i' [0, 1, 0, 1, 0] defaultConfig true
    (by decide) (by decide) (Or.inl rfl)

set_option maxRecDepth 4000 in
/-- C2: evidence against the phrase-count invariant.  Under the spec's
§4.1 value-equality parse, `[1,2,1,2,1,2]` has exactly `k = 3` distinct
LZ78 phrases (`[1]`, `[2]`, `[1,2]`) and ends mid-phrase on the already
seen phrase `[1,2]`, so the claim requires a final count `c = k + 2 = 5`;
the code's table instead has 6 entries, because the buffer reset at
line 99 drops the `int64` dtype set at line 77, so the re-occurrence of
phrase `[1]` is keyed by different (float64) bytes and inserted again.
The input passes default validation (supported kind, length `6 ≥ 5`). -/
theorem claim2_phrase_count_divergence :
    specDistinctPhrases [1, 2, 1, 2, 1, 2] = 3 ∧
    specEndsOnRepeat [1, 2, 1, 2, 1, 2] = true ∧
    phraseCount [1, 2, 1, 2, 1, 2] = 6 ∧
    passesValidation 'i' defaultConfig [1, 2, 1, 2, 1, 2] := by
  decide

/-- C3: `erLZ78` raises a `ValueError` if and only if validation is not
overridden and either the length is below the configured minimum or the
dtype kind is unsupported; an error carries no estimate. -/
theorem claim3_validation_iff (kind : Char) (seq : List Int) (cfg : Config)
    (ov : Bool) :
    (∃ e, erLZ78 kind seq cfg ov = Except.error e) ↔
      ov = false ∧ (seq.length < cfg.minSize ∨ kind ∈ unsupportedKinds) := by
  cases ov with
  | true => simp [erLZ78]
  | false =>
    by_cases hk : kind ∈ unsupportedKinds
    · simp [erLZ78, hk]
    · by_cases hl : seq.length < cfg.minSize
      · simp [erLZ78, hk, hl]
      · simp [erLZ78, hk, hl]

/-- C4: for every sequence of length 1, whenever validation is passed or
skipped, `erLZ78` returns exactly 0. -/
theorem claim4_length_one (kind : Char) (seq : List Int) (cfg : Config)
    (ov : Bool) (h : seq.length = 1)
    (hv : ov = true ∨ passesValidation kind cfg seq) :
    erLZ78 kind seq cfg ov = Except.ok 0 := by
  rw [erLZ78_ok kind seq cfg ov hv, erCore_of_length_one h]

theorem claim4_length_one_witness :
    erLZ78 'i' [5] defaultConfig true = Except.ok 0 :=
  claim4_length_one 'i' [5] defaultConfig true (by decide) (Or.inl rfl)

/-- C5: for every sequence made of one repeated symbol (alphabet size 1),
regardless of length, whenever validation is passed or skipped, the
result is exactly 0. -/
theorem claim5_constant_sequence (kind : Char) (x : Int) (m : Nat)
    (cfg : Config) (ov : Bool) (hm : 1 ≤ m)
    (hv : ov = true ∨ passesValidation kind cfg (List.replicate m x)) :
    erLZ78 kind (List.replicate m x) cfg ov = Except.ok 0 := by
  rw [erLZ78_ok kind _ cfg ov hv]
  have hc : erCore (List.replicate m x) = 0 := by
    by_cases h1 : m = 1
    · exact erCore_of_length_one (by simp [h1])
    · refine erCore_of_alpha_one (by simpa using h1) ?_
      unfold alphaSize
      rw [List.replicate_dedup (by omega)]
      rfl
  rw [hc]

theorem claim5_constant_sequence_witness :
    erLZ78 'i' (List.replicate 5 3) defaultConfig true = Except.ok 0 :=
  claim5_constant_sequence 'i' 3 5 defaultConfig true (by decide) (Or.inl rfl)

/-- C6: for every non-empty sequence, whenever validation is passed or
skipped, `erLZ78` returns a (real, hence finite) value and it is `≥ 0`. -/
theorem claim6_nonneg (kind : Char) (seq : List Int) (cfg : Config)
    (ov : Bool) (h : 1 ≤ seq.length)
    (hv : ov = true ∨ passesValidation kind cfg seq) :
    ∃ r : ℝ, erLZ78 kind seq cfg ov = Except.ok r ∧ 0 ≤ r :=
  ⟨erCore seq, erLZ78_ok kind seq cfg ov hv, erCore_nonneg seq h⟩

theorem claim6_nonneg_witness :
    ∃ r : ℝ, erLZ78 'i' [3, 1, 4, 1, 5] defaultConfig true = Except.ok r ∧
      0 ≤ r :=
  claim6_nonneg 'i' [3, 1, 4, 1, 5] defaultConfig true (by decide) (Or.inl rfl)

/-- C7: at every step of the parsing loop (after `j` iterations, for any
`j`), the phrase table's keys are unique and the `k`-th entry inserted
(0-indexed, the seed empty phrase being the 0th) carries value `k` —
every phrase insertion uses the table's current size as its index; only
the compensation entry (key `-1`) is exempt. -/
theorem claim7_table_invariant (seq : List Int) (j : Nat) :
    tableInv ((lzRun seq j).table) :=
  tableInv_foldl seq.length ((seq.enum).take j) initState tableInv_init

/-- C8: the algorithm body after validation is total: for every non-empty
sequence, whenever validation is passed or skipped, `erLZ78` returns a
value and raises no error. -/
theorem claim8_core_total (kind : Char) (seq : List Int) (cfg : Config)
    (ov : Bool) (h : 1 ≤ seq.length)
    (hv : ov = true ∨ passesValidation kind cfg seq) :
    ∃ r : ℝ, erLZ78 kind seq cfg ov = Except.ok r :=
  ⟨erCore seq, erLZ78_ok kind seq cfg ov hv⟩

theorem claim8_core_total_witness :
    ∃ r : ℝ, erLZ78 'i' [0, 1, 2, 3, 4] defaultConfig true = Except.ok r :=
  claim8_core_total 'i' [0, 1, 2, 3, 4] defaultConfig true (by decide)
    (Or.inl rfl)

/-- C9: after `set_minimum_size k`, a non-overridden call on a supported
dtype kind rejects every sequence shorter than `k` with the regenerated
error message mentioning `k`, and accepts (returns a value for) every
sequence of length at least `k`; the setter stores the threshold `k`. -/
theorem claim9_set_minimum_size (k : Nat) (kind : Char) (seq : List Int)
    (hk : kind ∉ unsupportedKinds) :
    (set_minimum_size k).minSize = k ∧
    (seq.length < k → erLZ78 kind seq (set_minimum_size k) false =
      Except.error (inputErrorMessage k)) ∧
    (k ≤ seq.length → erLZ78 kind seq (set_minimum_size k) false =
      Except.ok (erCore seq)) := by
  refine ⟨rfl, ?_, ?_⟩
  · intro hl
    simp [erLZ78, hk, set_minimum_size, hl]
  · intro hl
    exact erLZ78_ok kind seq (set_minimum_size k) false
      (Or.inr ((passesValidation_iff kind (set_minimum_size k) seq).mpr ⟨hk, hl⟩))

theorem claim9_set_minimum_size_witness :
    (set_minimum_size 7).minSize = 7 ∧
    erLZ78 'i' [1, 2, 3] (set_minimum_size 7) false =
      Except.error (inputErrorMessage 7) := by
  have h := claim9_set_minimum_size 7 'i' [1, 2, 3] (by decide)
  exact ⟨h.1, h.2.1 (by decide)⟩

/-- C10: on any input that would pass validation, overriding the input
check does not change the result: the override skips only the checks and
the (identity, on our model) precautionary cast. -/
theorem claim10_override_equivalence (kind : Char) (seq : List Int)
    (cfg : Config) (h : passesValidation kind cfg seq) :
    erLZ78 kind seq cfg true = erLZ78 kind seq cfg false := by
  rw [erLZ78_ok kind seq cfg true (Or.inl rfl),
    erLZ78_ok kind seq cfg false (Or.inr h)]

theorem claim10_override_equivalence_witness :
    erLZ78 'i' [1, 1, 2, 3, 5, 8] defaultConfig true =
      erLZ78 'i' [1, 1, 2, 3, 5, 8] defaultConfig false :=
  claim10_override_equivalence 'i' [1, 1, 2, 3, 5, 8] defaultConfig (by decide)

end LZ78
